import Mathlib

/-!
Verification development for the `digital-duck/claude-code-demo` repository.

This file gives a shallow embedding, in Lean 4, of the parts of the
repository that the accompanying specification talks about:

* `rollout/utils/kg_builder.py` — the `UnifiedKnowledgeGraphBuilder`
  (file-type dispatch, per-file knowledge extraction with error isolation,
  directory walking, statistics, export), and the `FileType` enum;
* `rollout/src/batch_repo_processor.py` — the
  `BatchRepoDocumentationGenerator` (sequential and parallel batch runs
  over repository roots, per-repo failure capture, summary statistics).

Modelling conventions:

* A filesystem path is its list of components (`Path.parts` in Python).
* Python exceptions are modelled by `Except String`: a raised exception is
  `.error msg` where `msg` is the exception's `str(e)` rendering.
* File-system reads/writes performed by the code (notebook conversion,
  export file writing) are modelled as explicit parameters or as returned
  payload values; wall-clock fields (durations, timestamps) are omitted.
* Python dicts keyed by strings are association lists with first-match
  lookup and insert-or-update-in-place semantics.
-/

/-- A filesystem path, modelled by its components (`pathlib.Path.parts`). -/
structure FsPath where
  parts : List String
deriving DecidableEq, Repr

/-- `str(path)`: components joined by `/`. -/
def pathStr (p : FsPath) : String :=
  String.intercalate "/" p.parts

/-- `Path.name`: the final component (empty for an empty path). -/
def fsName (p : FsPath) : String :=
  (p.parts.getLast?).getD ""

/-- Python `str.startswith(pre)`. -/
def pyStartsWith (s pre : String) : Bool :=
  pre.toList.isPrefixOf s.toList

/-- Python `str.endswith(suf)`. -/
def pyEndsWith (s suf : String) : Bool :=
  suf.toList.isSuffixOf s.toList

/-- Python `str.lower()` (ASCII range, which covers every extension used). -/
def lowerStr (s : String) : String :=
  String.mk (s.toList.map Char.toLower)

/-- Index of the last occurrence of `c` in `cs` (Python `str.rfind`). -/
def rfindIdx (c : Char) (cs : List Char) : Option Nat :=
  match cs.reverse.findIdx? (fun x => x = c) with
  | none => none
  | some j => some (cs.length - 1 - j)

/-- `pathlib.PurePath.suffix` of a file name: the part of the name from the
last dot, provided that dot is neither the first nor the last character;
otherwise the empty string. -/
def pySuffix (name : String) : String :=
  let cs := name.toList
  match rfindIdx '.' cs with
  | none => ""
  | some i => if 0 < i ∧ i < cs.length - 1 then String.mk (cs.drop i) else ""

/-- `Path.suffix` of a path: the suffix of its final component. -/
def fsSuffix (p : FsPath) : String :=
  pySuffix (fsName p)

/-- The `FileType` enum of `kg_builder.py`, in declaration order. -/
inductive FileType where
  | PYTHON
  | JUPYTER
  | SQL
  | JAVASCRIPT
  | TYPESCRIPT
  | WORD
  | POWERPOINT
  | EXCEL
deriving DecidableEq, Repr

/-- `FileType.value`: the extension list attached to each enum member. -/
def FileType.exts : FileType → List String
  | .PYTHON => [".py"]
  | .JUPYTER => [".ipynb"]
  | .SQL => [".sql"]
  | .JAVASCRIPT => [".js", ".jsx"]
  | .TYPESCRIPT => [".ts", ".tsx"]
  | .WORD => [".docx"]
  | .POWERPOINT => [".pptx"]
  | .EXCEL => [".xlsx", ".xls", ".csv"]

/-- The enum members in Python iteration (declaration) order. -/
def fileTypeList : List FileType :=
  [.PYTHON, .JUPYTER, .SQL, .JAVASCRIPT, .TYPESCRIPT, .WORD, .POWERPOINT, .EXCEL]

/-- `FileType.from_extension`: lower-case the argument, then return the first
enum member whose extension list contains it, else `None`. -/
def FileType.from_extension (extension : String) : Option FileType :=
  fileTypeList.find? (fun ft => decide (lowerStr extension ∈ ft.exts))

/-- An entity dict of the knowledge graph; only the `type` key matters to the
claims, and it is optional (`entity.get('type', 'unknown')`). -/
structure Entity where
  etype : Option String
  payload : String
deriving DecidableEq, Repr

/-- `entity.get('type', 'unknown')`. -/
def Entity.effType (e : Entity) : String :=
  e.etype.getD "unknown"

/-- A relationship dict (`from`/`to`/`type` keys). -/
structure KgRel where
  rfrom : String
  rto : String
  rtype : String
deriving DecidableEq, Repr

/-- The dict returned by `FileProcessor.extract_knowledge`. -/
structure KgData where
  source_file : String
  file_type : String
  entities : List Entity
  relationships : List KgRel
  metadata : Option String
deriving DecidableEq, Repr

/-- A registered `FileProcessor`: the dispatch predicate `can_process`, the
extraction function `extract_knowledge` (raising = `.error`), and
`get_supported_extensions`. -/
structure Processor where
  canProcess : FsPath → Bool
  extract : FsPath → Except String KgData
  supportedExtensions : List String

/-- `PythonProcessor`: `can_process` tests `suffix == '.py'`; extraction
returns a fixed dict with empty entity/relationship lists. -/
def pythonProcessor : Processor where
  canProcess := fun p => decide (fsSuffix p = ".py")
  extract := fun p => .ok
    { source_file := pathStr p, file_type := "python"
      entities := [], relationships := [], metadata := none }
  supportedExtensions := [".py"]

/-- `JupyterProcessor`: `can_process` tests `suffix == '.ipynb'`; extraction
converts the notebook on disk, so it is modelled as a parameter (it is the
one default extractor that genuinely performs I/O and can raise). -/
def jupyterProcessor (convert : FsPath → Except String KgData) : Processor where
  canProcess := fun p => decide (fsSuffix p = ".ipynb")
  extract := convert
  supportedExtensions := [".ipynb"]

/-- `SQLProcessor`: `can_process` tests `suffix == '.sql'`. -/
def sqlProcessor : Processor where
  canProcess := fun p => decide (fsSuffix p = ".sql")
  extract := fun p => .ok
    { source_file := pathStr p, file_type := "sql"
      entities := [], relationships := [], metadata := none }
  supportedExtensions := [".sql"]

/-- `JavaScriptProcessor`: `can_process` tests membership of the suffix in
`['.js', '.jsx', '.ts', '.tsx']`. -/
def javascriptProcessor : Processor where
  canProcess := fun p => decide (fsSuffix p ∈ [".js", ".jsx", ".ts", ".tsx"])
  extract := fun p => .ok
    { source_file := pathStr p, file_type := "javascript"
      entities := [], relationships := [], metadata := none }
  supportedExtensions := [".js", ".jsx", ".ts", ".tsx"]

/-- `OfficeDocumentProcessor`: `can_process` tests membership of the suffix
in `self.supported = ['.docx', '.pptx', '.xlsx', '.xls']`. -/
def officeProcessor : Processor where
  canProcess := fun p => decide (fsSuffix p ∈ [".docx", ".pptx", ".xlsx", ".xls"])
  extract := fun p => .ok
    { source_file := pathStr p
      file_type := "office_" ++ (fsSuffix p).drop 1
      entities := [], relationships := [], metadata := none }
  supportedExtensions := [".docx", ".pptx", ".xlsx", ".xls"]

/-- `register_default_processors`, in registration order. -/
def defaultProcessors (convert : FsPath → Except String KgData) : List Processor :=
  [pythonProcessor, jupyterProcessor convert, sqlProcessor,
   javascriptProcessor, officeProcessor]

/-- The union, in order, of the default processors' supported extensions. -/
def defaultExtensions : List String :=
  [".py", ".ipynb", ".sql", ".js", ".jsx", ".ts", ".tsx",
   ".docx", ".pptx", ".xlsx", ".xls"]

/-- The builder's `self.kg_data` dict. -/
structure KgState where
  entities : List Entity
  relationships : List KgRel
  metadata : List (String × Option String)
  files_processed : List String
deriving DecidableEq, Repr

/-- `self.kg_data` as set up in `UnifiedKnowledgeGraphBuilder.__init__`. -/
def initState : KgState :=
  { entities := [], relationships := [], metadata := [], files_processed := [] }

/-- Python dict assignment `d[k] = v`: update the first binding of `k` in
place, else append a new binding. -/
def dictInsert (d : List (String × Option String)) (k : String) (v : Option String) :
    List (String × Option String) :=
  match d with
  | [] => [(k, v)]
  | (k', v') :: rest =>
      if k' = k then (k', v) :: rest else (k', v') :: dictInsert rest k v

/-- `get_processor`: the first registered processor whose `can_process`
accepts the file, else `None`. -/
def getProcessor (procs : List Processor) (p : FsPath) : Option Processor :=
  procs.find? (fun pr => pr.canProcess p)

/-- `process_file`: missing file or no processor yields `None`; a raising
`extract_knowledge` is caught and yields `None` with the state untouched; on
success the path is appended to `files_processed` and the extracted dict is
returned. `exists?` models `file_path.exists()`. -/
def processFile (exists? : FsPath → Bool) (procs : List Processor)
    (st : KgState) (p : FsPath) : Option KgData × KgState :=
  if exists? p then
    match getProcessor procs p with
    | none => (none, st)
    | some pr =>
      match pr.extract p with
      | .error _ => (none, st)
      | .ok kg =>
          (some kg, { st with files_processed := st.files_processed ++ [pathStr p] })
  else (none, st)

/-- Name of one extraction attempt outcome: `process_file`'s returned dict,
when extraction succeeded, else `none` (missing file, no processor, or a
raised exception). -/
def extractOk (exists? : FsPath → Bool) (procs : List Processor)
    (p : FsPath) : Option KgData :=
  if exists? p then
    match getProcessor procs p with
    | none => none
    | some pr => (pr.extract p).toOption
  else none

/-- The extension list `process_directory` globs for: the flattened `value`
lists of the `file_types` argument when given, else the flattened
`get_supported_extensions()` of the registered processors. -/
def directoryExtensions (procs : List Processor)
    (fileTypes : Option (List FileType)) : List String :=
  match fileTypes with
  | some fts => fts.flatMap FileType.exts
  | none => procs.flatMap (fun pr => pr.supportedExtensions)

/-- A path has a hidden segment when any component starts with `'.'`. -/
def hasHiddenSegment (p : FsPath) : Bool :=
  p.parts.any (fun part => pyStartsWith part ".")

/-- The candidate file list of `process_directory`: for each extension in
order, the tree's files (in traversal order) whose name the glob `*{ext}`
matches, concatenated; then paths with a hidden segment are filtered out.
`tree` is the recursive directory listing in traversal order. -/
def candidateFiles (tree : List FsPath) (exts : List String) : List FsPath :=
  (exts.flatMap (fun ext => tree.filter (fun f => pyEndsWith (fsName f) ext))).filter
    (fun f => !hasHiddenSegment f)

/-- The merge step of `process_directory`'s loop body on a successful
extraction: extend `entities` and `relationships`, record the metadata
under the file's key. -/
def mergeKgData (st : KgState) (p : FsPath) (kg : KgData) : KgState :=
  { st with
      entities := st.entities ++ kg.entities
      relationships := st.relationships ++ kg.relationships
      metadata := dictInsert st.metadata (pathStr p) kg.metadata }

/-- One iteration of `process_directory`'s loop: `process_file`, then merge
the extracted dict into `self.kg_data` when extraction succeeded. -/
def processDirStep (exists? : FsPath → Bool) (procs : List Processor)
    (st : KgState) (p : FsPath) : KgState :=
  match processFile exists? procs st p with
  | (none, st') => st'
  | (some kg, st') => mergeKgData st' p kg

/-- `process_directory` restricted to a given candidate list (the loop over
`files`). -/
def processDirList (exists? : FsPath → Bool) (procs : List Processor)
    (st : KgState) (files : List FsPath) : KgState :=
  files.foldl (processDirStep exists? procs) st

/-- `process_directory`: enumerate candidates by extension globs, filter
hidden segments, then process and merge each file; returns `self.kg_data`. -/
def processDirectory (exists? : FsPath → Bool) (procs : List Processor)
    (st : KgState) (tree : List FsPath)
    (fileTypes : Option (List FileType)) : KgState :=
  processDirList exists? procs st
    (candidateFiles tree (directoryExtensions procs fileTypes))

/-- What `export_kg` does, observably: the payload written to the output
file, or a call of the no-op GraphML stub, or nothing at all (the silent
fall-through for an unrecognised format), or a raised exception (no code
path produces one, but the claims speak of it). -/
inductive ExportOutcome where
  | jsonFile (data : KgState)
  | cypherFile (entities : List Entity) (relationships : List KgRel)
  | graphmlStub
  | noop
  | raised (exc : String)
deriving DecidableEq, Repr

/-- `export_kg`: `'json'` dumps the whole `kg_data`; `'neo4j'` writes Cypher
statements built from the entities and relationships; `'graphml'` calls a
stub whose body is `pass`; any other format string matches no branch and
nothing happens. No branch raises, and none touches `self.kg_data`, so the
state is returned unchanged. -/
def exportKg (st : KgState) (format : String) : ExportOutcome × KgState :=
  if format = "json" then (.jsonFile st, st)
  else if format = "neo4j" then (.cypherFile st.entities st.relationships, st)
  else if format = "graphml" then (.graphmlStub, st)
  else (.noop, st)

/-- First-match lookup in an association list (Python dict read). -/
def dictLookup (d : List (String × Nat)) (k : String) : Option Nat :=
  match d with
  | [] => none
  | (k', v) :: rest => if k' = k then some v else dictLookup rest k

/-- `counts[key] = counts.get(key, 0) + 1`. -/
def bumpCount (d : List (String × Nat)) (k : String) : List (String × Nat) :=
  match d with
  | [] => [(k, 1)]
  | (k', v) :: rest =>
      if k' = k then (k', v + 1) :: rest else (k', v) :: bumpCount rest k

/-- `_count_file_types`: count processed files by their path suffix. -/
def countFileTypes (st : KgState) : List (String × Nat) :=
  st.files_processed.foldl
    (fun counts fp => bumpCount counts (pySuffix ((fp.splitOn "/").getLast?.getD "")))
    []

/-- `_count_entity_types`: count entities by `entity.get('type', 'unknown')`. -/
def countEntityTypes (st : KgState) : List (String × Nat) :=
  st.entities.foldl (fun counts e => bumpCount counts e.effType) []

/-- The dict returned by `get_statistics`. -/
structure Stats where
  total_files : Nat
  total_entities : Nat
  total_relationships : Nat
  file_types : List (String × Nat)
  entity_types : List (String × Nat)
deriving DecidableEq, Repr

/-- `get_statistics`: sizes of the three sequences plus the two on-demand
count dicts. -/
def getStatistics (st : KgState) : Stats :=
  { total_files := st.files_processed.length
    total_entities := st.entities.length
    total_relationships := st.relationships.length
    file_types := countFileTypes st
    entity_types := countEntityTypes st }

/-- Status field of a per-repository outcome record. -/
inductive RepoStatus where
  | success
  | failed
deriving DecidableEq, Repr

/-- The docs dict returned by `generate_repo_documentation` (doc name to
generated path); only its keys/size matter to the claims. -/
def Docs := List (String × String)
deriving instance DecidableEq for Docs

/-- A per-repository outcome record, as built by `_process_sequential` and
`_process_single_repo`: the wall-clock fields (`duration_seconds`,
`timestamp`) are omitted, `repo_name` is derivable from `repo`. On success
`docs` is set and `error` is `none`; on failure `error` holds `str(e)` of
the raised exception and `docs` is absent. -/
structure RepoOutcome where
  repo : String
  status : RepoStatus
  docs : Option Docs
  error : Option String
deriving DecidableEq

/-- The per-repo try/except shared by the sequential loop body and by
`_process_single_repo`: a successful `generate_repo_documentation` yields a
`success` record carrying the docs; a raised exception `e` yields a
`failed` record with `error = str(e)`. -/
def outcomeOf (gen : String → Except String Docs) (repo : String) : RepoOutcome :=
  match gen repo with
  | .ok docs => { repo := repo, status := .success, docs := some docs, error := none }
  | .error e => { repo := repo, status := .failed, docs := none, error := some e }

/-- `_process_sequential`: iterate over the repos in order, appending each
outcome to `results`. -/
def runSequential (gen : String → Except String Docs)
    (repos : List String) : List RepoOutcome :=
  repos.foldl (fun results repo => results ++ [outcomeOf gen repo]) []

/-- `_process_parallel`: every repo is submitted, `_process_single_repo`
catches any exception inside the worker, and results are appended in
completion order — modelled by an arbitrary permutation `order` of the
submitted repos. -/
def runParallel (gen : String → Except String Docs)
    (order : List String) : List RepoOutcome :=
  order.map (outcomeOf gen)

/-- The order-insensitive aggregate statistics of a batch run, as computed
by `_print_summary` and `_calculate_statistics` (timing fields omitted):
successes, failures (`len(results) - success_count`), and
`total_docs_generated` summed over the successful outcomes. -/
structure BatchSummary where
  success_count : Nat
  failed_count : Nat
  total_docs : Nat
deriving DecidableEq

/-- Compute the batch summary from a result list. -/
def batchSummary (results : List RepoOutcome) : BatchSummary :=
  { success_count := results.countP (fun r => r.status = RepoStatus.success)
    failed_count :=
      results.length - results.countP (fun r => r.status = RepoStatus.success)
    total_docs :=
      ((results.filter (fun r => r.status = RepoStatus.success)).map
        (fun r => (r.docs.getD []).length)).sum }

/-- Lexicographic comparison of character lists (used to state the spec's
"lexical path order"). -/
def charListLe : List Char → List Char → Bool
  | [], _ => true
  | _ :: _, [] => false
  | a :: as, b :: bs => if a = b then charListLe as bs else decide (a < b)

/-- Lexical order on paths via their string rendering. -/
def pathLe (f g : FsPath) : Bool :=
  charListLe (pathStr f).toList (pathStr g).toList

/-- A processor whose `can_process` accepts every file: used to exhibit that
registration order decides dispatch when two processors claim a file. -/
def greedyProcessor : Processor where
  canProcess := fun _ => true
  extract := fun p => .ok
    { source_file := pathStr p, file_type := "greedy"
      entities := [], relationships := [], metadata := none }
  supportedExtensions := [".py"]

/-- A sample populated `kg_data` state. -/
def c4State : KgState where
  entities := [{ etype := some "function", payload := "main" }]
  relationships := [{ rfrom := "main", rto := "helper", rtype := "CALLS" }]
  metadata := [("a.py", none)]
  files_processed := ["a.py"]

/-- State after `process_file` succeeds once on `a.py`. -/
def c3St1 : KgState :=
  (processFile (fun _ => true) [pythonProcessor] initState ⟨["a.py"]⟩).2

/-- State after `process_file` succeeds a second time on the same `a.py`. -/
def c3St2 : KgState :=
  (processFile (fun _ => true) [pythonProcessor] c3St1 ⟨["a.py"]⟩).2

/-- A directory tree holding a version-control file, a notebook checkpoint,
and a regular Python file. -/
def c8Tree : List FsPath :=
  [⟨["root", ".git", "config"]⟩,
   ⟨["root", "a", ".ipynb_checkpoints", "x.ipynb"]⟩,
   ⟨["root", "a", "b.py"]⟩]

/-- A two-file tree in traversal order: the `.py` file before the `.sql`
file, though `a.sql` sorts before `b.py` lexically. -/
def c5Tree : List FsPath :=
  [⟨["root", "b.py"]⟩, ⟨["root", "a.sql"]⟩]

/-- A `file_types` argument listing `PYTHON` twice. -/
def c5FileTypes : List FileType :=
  [.PYTHON, .SQL, .PYTHON]

/-- The candidate list `process_directory` enumerates for `c5Tree` with
`file_types = c5FileTypes`. -/
def c5Files : List FsPath :=
  candidateFiles c5Tree
    (directoryExtensions (defaultProcessors (fun _ => Except.error "")) (some c5FileTypes))

/-- A documentation generator that fails on the repo `bad` and succeeds
elsewhere. -/
def sampleGen (repo : String) : Except String Docs :=
  if repo = "bad" then Except.error "boom" else Except.ok [("CLAUDE.md", "ok")]

/-! ## Helper lemmas -/

theorem dictLookup_bumpCount_self (d : List (String × Nat)) (k : String) :
    dictLookup (bumpCount d k) k = some ((dictLookup d k).getD 0 + 1) := by
  induction d with
  | nil => simp [bumpCount, dictLookup]
  | cons kv rest ih =>
    obtain ⟨k', v⟩ := kv
    by_cases h : k' = k
    · subst h
      simp [bumpCount, dictLookup]
    · simp [bumpCount, dictLookup, h, ih]

theorem dictLookup_bumpCount_other (d : List (String × Nat)) (k t : String)
    (h : t ≠ k) : dictLookup (bumpCount d k) t = dictLookup d t := by
  induction d with
  | nil => simp [bumpCount, dictLookup, Ne.symm h]
  | cons kv rest ih =>
    obtain ⟨k', v⟩ := kv
    by_cases hk : k' = k
    · subst hk
      simp [bumpCount, dictLookup, Ne.symm h]
    · simp [bumpCount, dictLookup, hk, ih]

theorem lookupD_foldl_bump {α : Type} (f : α → String) (t : String) (l : List α) :
    ∀ acc : List (String × Nat),
      (dictLookup (l.foldl (fun c e => bumpCount c (f e)) acc) t).getD 0
        = (dictLookup acc t).getD 0 + l.countP (fun e => decide (f e = t)) := by
  induction l with
  | nil => intro acc; simp
  | cons e l ih =>
    intro acc
    rw [List.foldl_cons, ih, List.countP_cons]
    by_cases h : f e = t
    · subst h
      rw [dictLookup_bumpCount_self]
      simp
      omega
    · rw [dictLookup_bumpCount_other _ _ _ (fun hh => h hh.symm)]
      simp [h]

/-! ## C6 — dispatch resolution is first-registered-wins and total -/

/-- C6: `get_processor` returns the first-registered processor whose
`can_process` accepts the file — in particular, when two registered
processors could both handle the file, the earlier-registered one is
selected — and returns `None` exactly when no registered processor claims
the file. Determinism on repeated calls is immediate because
`getProcessor` is a pure function of the registration list and the path. -/
theorem getProcessor_first_registered (p : FsPath) :
    (∀ pre a post, (∀ q ∈ pre, q.canProcess p = false) → a.canProcess p = true →
      getProcessor (pre ++ a :: post) p = some a)
    ∧ ∀ procs : List Processor,
        (getProcessor procs p = none ↔ ∀ q ∈ procs, q.canProcess p = false) := by
  constructor
  · intro pre a post hpre ha
    induction pre with
    | nil => simp [getProcessor, ha]
    | cons q pre ih =>
      have hq : q.canProcess p = false := hpre q (by simp)
      have hrest : ∀ q' ∈ pre, q'.canProcess p = false := by
        intro q' hq'
        exact hpre q' (by simp [hq'])
      simpa [getProcessor, hq] using ih hrest
  · intro procs
    simp [getProcessor, List.find?_eq_none]

/-- Witness for C6: with a second, later-registered processor that claims
every file, dispatch on `a.py` still picks the first-registered
`PythonProcessor`. -/
theorem getProcessor_first_registered_witness :
    getProcessor [pythonProcessor, greedyProcessor] ⟨["a.py"]⟩ = some pythonProcessor := by
  exact (getProcessor_first_registered ⟨["a.py"]⟩).1 [] pythonProcessor [greedyProcessor]
    (by simp) (by decide)

/-! ## C4 — export with an unsupported format -/

/-- C4 counterexample: exporting with format `"xml"` does not fail with an
`UnsupportedFormatError` — no such error exists in the code and no branch
raises; the call silently does nothing and leaves the graph unchanged. -/
theorem exportKg_unsupported_counterexample :
    exportKg c4State "xml" = (ExportOutcome.noop, c4State)
    ∧ (exportKg c4State "xml").1 ≠ ExportOutcome.raised "UnsupportedFormatError" := by
  constructor
  · decide
  · decide

/-- C4 amended: a format outside `{json, neo4j, graphml}` matches no branch
of `export_kg`: nothing is written, no exception is raised, and the
in-memory `kg_data` is returned unchanged. -/
theorem exportKg_unsupported_silent (st : KgState) (format : String)
    (h : format ∉ (["json", "neo4j", "graphml"] : List String)) :
    exportKg st format = (ExportOutcome.noop, st) := by
  simp only [List.mem_cons, List.not_mem_nil, or_false, not_or] at h
  obtain ⟨h1, h2, h3⟩ := h
  simp [exportKg, h1, h2, h3]

/-- Witness for the amended C4 at the concrete format `"xml"`. -/
theorem exportKg_unsupported_silent_witness :
    exportKg c4State "xml" = (ExportOutcome.noop, c4State) := by
  exact exportKg_unsupported_silent c4State "xml" (by decide)

/-! ## C9 — statistics are the literal sizes of the sequences -/

/-- C9: `get_statistics` returns, at call time, the literal lengths of
`files_processed`, `entities` and `relationships`, and its per-entity-type
counts equal the multiplicities of each (effective) entity type in the
entity sequence; being computed on demand, a merge is reflected by the
very next call, as the two conjuncts about `mergeKgData` show. -/
theorem getStatistics_counts (st : KgState) (t : String) (p : FsPath) (kg : KgData) :
    (getStatistics st).total_files = st.files_processed.length
    ∧ (getStatistics st).total_entities = st.entities.length
    ∧ (getStatistics st).total_relationships = st.relationships.length
    ∧ (dictLookup (getStatistics st).entity_types t).getD 0
        = st.entities.countP (fun e => decide (e.effType = t))
    ∧ (getStatistics (mergeKgData st p kg)).total_entities
        = st.entities.length + kg.entities.length
    ∧ (getStatistics (mergeKgData st p kg)).total_relationships
        = st.relationships.length + kg.relationships.length := by
  refine ⟨rfl, rfl, rfl, ?_, ?_, ?_⟩
  · simpa [getStatistics, countEntityTypes, dictLookup] using
      lookupD_foldl_bump Entity.effType t st.entities []
  · simp [getStatistics, mergeKgData]
  · simp [getStatistics, mergeKgData]

/-! ## C10 — extension dispatch is case-sensitive -/

/-- C10: each default processor compares `file_path.suffix` against
lower-case extension constants, so when the suffix is outside that set —
e.g. because it differs from a supported extension only in letter case —
`get_processor` returns `None` and `process_file` skips the file, adding
nothing to the graph; yet `FileType.from_extension` lower-cases its
argument first and therefore accepts any extension whose lowering is
listed. -/
theorem dispatch_case_sensitive (convert : FsPath → Except String KgData)
    (exists? : FsPath → Bool) (st : KgState) (p : FsPath)
    (h : fsSuffix p ∉ defaultExtensions) :
    getProcessor (defaultProcessors convert) p = none
    ∧ processFile exists? (defaultProcessors convert) st p = (none, st)
    ∧ ∀ ft : FileType, lowerStr (fsSuffix p) ∈ ft.exts →
        (FileType.from_extension (fsSuffix p)).isSome = true := by
  simp only [defaultExtensions, List.mem_cons, List.not_mem_nil, or_false, not_or] at h
  obtain ⟨h1, h2, h3, h4, h5, h6, h7, h8, h9, h10, h11⟩ := h
  have hnone : getProcessor (defaultProcessors convert) p = none := by
    simp [getProcessor, defaultProcessors, pythonProcessor, jupyterProcessor,
      sqlProcessor, javascriptProcessor, officeProcessor,
      h1, h2, h3, h4, h5, h6, h7, h8, h9, h10, h11]
  refine ⟨hnone, ?_, ?_⟩
  · unfold processFile
    cases he : exists? p
    · simp
    · simp [hnone]
  · intro ft hmem
    rw [FileType.from_extension]
    rw [List.find?_isSome]
    refine ⟨ft, ?_, by simpa using hmem⟩
    cases ft <;> simp [fileTypeList]

/-- Witness for C10 at the file `X.PY`: no processor claims it, processing
it is a no-op, yet `from_extension` accepts its suffix `.PY`. -/
theorem dispatch_case_sensitive_witness :
    getProcessor (defaultProcessors (fun _ => Except.error "")) ⟨["X.PY"]⟩ = none
    ∧ processFile (fun _ => true) (defaultProcessors (fun _ => Except.error ""))
        initState ⟨["X.PY"]⟩ = (none, initState)
    ∧ (FileType.from_extension (fsSuffix ⟨["X.PY"]⟩)).isSome = true := by
  have h := dispatch_case_sensitive (fun _ => Except.error "") (fun _ => true)
    initState ⟨["X.PY"]⟩ (by decide)
  exact ⟨h.1, h.2.1, h.2.2 FileType.PYTHON (by decide)⟩

/-! ## C8 — the walk excludes hidden and checkpoint segments -/

/-- C8: every path returned by the directory walk passes the filter that
rejects any component starting with `'.'`; on the concrete tree with
`root/.git/config`, `root/a/.ipynb_checkpoints/x.ipynb` and `root/a/b.py`,
only `root/a/b.py` is returned. -/
theorem walk_excludes_hidden (tree : List FsPath) (exts : List String) (f : FsPath)
    (h : f ∈ candidateFiles tree exts) :
    hasHiddenSegment f = false
    ∧ candidateFiles c8Tree defaultExtensions = [⟨["root", "a", "b.py"]⟩] := by
  constructor
  · have hm := List.mem_filter.mp h
    simpa using hm.2
  · decide

/-- Witness for C8: `root/a/b.py` is in the walk of the concrete tree and
has no hidden segment. -/
theorem walk_excludes_hidden_witness :
    hasHiddenSegment ⟨["root", "a", "b.py"]⟩ = false := by
  exact (walk_excludes_hidden c8Tree defaultExtensions ⟨["root", "a", "b.py"]⟩
    (by decide)).1

/-! ## C3 — the files_processed ledger is NOT deduplicated -/

/-- C3 counterexample: processing the same file `a.py` twice (both
extractions succeeding) leaves `files_processed = ["a.py", "a.py"]` — the
append in `process_file` is unconditional, so the ledger does acquire a
duplicate path, contrary to the claim. -/
theorem ledger_dedup_counterexample :
    c3St2.files_processed = ["a.py", "a.py"]
    ∧ ¬ c3St2.files_processed.Nodup := by
  constructor
  · decide
  · decide

/-- C3 amended: on every successful extraction `process_file` appends the
path to `files_processed` unconditionally — there is no presence check —
so merging the same file's result a second time duplicates the ledger
entry, just as the entity and relationship sequences may gain duplicates. -/
theorem ledger_append_unconditional (exists? : FsPath → Bool)
    (procs : List Processor) (st : KgState) (p : FsPath)
    (h : (processFile exists? procs st p).1.isSome = true) :
    ((processFile exists? procs st p).2).files_processed
        = st.files_processed ++ [pathStr p]
    ∧ (pathStr p ∈ st.files_processed →
        ¬ ((processFile exists? procs st p).2).files_processed.Nodup) := by
  have hfp : ((processFile exists? procs st p).2).files_processed
      = st.files_processed ++ [pathStr p] := by
    unfold processFile at h ⊢
    by_cases he : exists? p = true
    · rw [if_pos he] at h ⊢
      cases hg : getProcessor procs p
      · simp [hg] at h
      · rename_i pr
        cases hx : pr.extract p
        · simp [hg, hx] at h
        · simp [hx]
    · rw [if_neg he] at h
      simp at h
  refine ⟨hfp, fun hmem hnd => ?_⟩
  rw [hfp] at hnd
  rcases List.nodup_append.mp hnd with ⟨-, -, hdisj⟩
  exact hdisj hmem (by simp)

/-- Witness for the amended C3: re-processing `a.py` from the state that
already lists it appends a second copy, breaking `Nodup`. -/
theorem ledger_append_unconditional_witness :
    ((processFile (fun _ => true) [pythonProcessor] c3St1 ⟨["a.py"]⟩).2).files_processed
        = c3St1.files_processed ++ [pathStr ⟨["a.py"]⟩]
    ∧ ¬ ((processFile (fun _ => true) [pythonProcessor] c3St1 ⟨["a.py"]⟩).2).files_processed.Nodup := by
  have h := ledger_append_unconditional (fun _ => true) [pythonProcessor]
    c3St1 ⟨["a.py"]⟩ (by decide)
  exact ⟨h.1, h.2 (by decide)⟩

/-! ## C5 — the candidate list is neither deduplicated nor sorted -/

/-- C5 counterexample: with `file_types = [PYTHON, SQL, PYTHON]` over the
tree `[root/b.py, root/a.sql]`, the enumeration is
`[root/b.py, root/a.sql, root/b.py]` — `root/b.py` appears twice (a path
matched by more than one extension glob pass is simply emitted again), and
the order is per-extension-group traversal order, not lexical
(`root/a.sql` would sort before `root/b.py`). -/
theorem walk_nodup_sorted_counterexample :
    c5Files = [⟨["root", "b.py"]⟩, ⟨["root", "a.sql"]⟩, ⟨["root", "b.py"]⟩]
    ∧ ¬ c5Files.Nodup
    ∧ ¬ List.Sorted (fun f g => pathLe f g = true) c5Files := by
  refine ⟨by decide, by decide, ?_⟩
  intro hs
  have heq : c5Files = [⟨["root", "b.py"]⟩, ⟨["root", "a.sql"]⟩, ⟨["root", "b.py"]⟩] := by
    decide
  rw [heq] at hs
  have hle := (List.sorted_cons.mp hs).1 ⟨["root", "a.sql"]⟩ (by simp)
  exact absurd hle (by decide)

/-- C5 amended: the walk concatenates the per-extension glob results and
only filters hidden segments — no deduplication and no sort. Each
non-hidden path occurs in the candidate list exactly once per matching
extension entry per occurrence in the tree; hidden paths never occur. -/
theorem walk_multiplicity (tree : List FsPath) (exts : List String) (q : FsPath) :
    (candidateFiles tree exts).count q
      = if hasHiddenSegment q then 0
        else (exts.countP (fun ext => pyEndsWith (fsName q) ext)) * tree.count q := by
  unfold candidateFiles
  by_cases hq : hasHiddenSegment q
  · rw [if_pos hq]
    rw [List.count_eq_zero]
    intro hmem
    have := (List.mem_filter.mp hmem).2
    simp [hq] at this
  · rw [if_neg hq, List.count_filter (by simp [hq])]
    induction exts with
    | nil => simp
    | cons e es ih =>
      rw [List.flatMap_cons, List.count_append, ih, List.countP_cons]
      by_cases he : pyEndsWith (fsName q) e = true
      · rw [List.count_filter (by simpa using he)]
        simp [he]
        ring
      · have hzero : (List.filter (fun f => pyEndsWith (fsName f) e) tree).count q = 0 := by
          rw [List.count_eq_zero]
          intro hmem
          exact he ((List.mem_filter.mp hmem).2)
        rw [hzero]
        simp [he]

/-! ## C1 — a failing extraction never aborts the directory run -/

theorem processFile_eq_of_extractOk_none (exists? : FsPath → Bool)
    (procs : List Processor) (st : KgState) (p : FsPath)
    (h : extractOk exists? procs p = none) :
    processFile exists? procs st p = (none, st) := by
  unfold processFile
  unfold extractOk at h
  by_cases he : exists? p = true
  · rw [if_pos he] at h ⊢
    cases hg : getProcessor procs p
    · simp
    · rename_i pr
      simp only [hg] at h
      cases hx : pr.extract p
      · simp [hx]
      · simp [hx, Except.toOption] at h
  · rw [if_neg he]

theorem processFile_eq_of_extractOk_some (exists? : FsPath → Bool)
    (procs : List Processor) (st : KgState) (p : FsPath) (kg : KgData)
    (h : extractOk exists? procs p = some kg) :
    processFile exists? procs st p
      = (some kg, { st with files_processed := st.files_processed ++ [pathStr p] }) := by
  unfold processFile
  unfold extractOk at h
  by_cases he : exists? p = true
  · rw [if_pos he] at h ⊢
    cases hg : getProcessor procs p
    · simp [hg] at h
    · rename_i pr
      simp only [hg] at h
      cases hx : pr.extract p
      · simp [hx, Except.toOption] at h
      · simp [hx, Except.toOption] at h
        simp [hx, h]
  · rw [if_neg he] at h
    simp at h

theorem processDirStep_none (exists? : FsPath → Bool) (procs : List Processor)
    (st : KgState) (p : FsPath) (h : extractOk exists? procs p = none) :
    processDirStep exists? procs st p = st := by
  unfold processDirStep
  rw [processFile_eq_of_extractOk_none exists? procs st p h]

theorem processDirStep_some (exists? : FsPath → Bool) (procs : List Processor)
    (st : KgState) (p : FsPath) (kg : KgData)
    (h : extractOk exists? procs p = some kg) :
    processDirStep exists? procs st p
      = { entities := st.entities ++ kg.entities
          relationships := st.relationships ++ kg.relationships
          metadata := dictInsert st.metadata (pathStr p) kg.metadata
          files_processed := st.files_processed ++ [pathStr p] } := by
  unfold processDirStep
  rw [processFile_eq_of_extractOk_some exists? procs st p kg h]
  rfl

theorem processDirList_entities (exists? : FsPath → Bool) (procs : List Processor)
    (files : List FsPath) : ∀ st : KgState,
    (processDirList exists? procs st files).entities
      = st.entities
        ++ (files.filterMap (extractOk exists? procs)).flatMap (fun kg => kg.entities) := by
  induction files with
  | nil => intro st; simp [processDirList]
  | cons f fs ih =>
    intro st
    rw [processDirList, List.foldl_cons, List.filterMap_cons]
    cases h : extractOk exists? procs f
    · rw [processDirStep_none exists? procs st f h]
      exact ih st
    · rename_i kg
      rw [processDirStep_some exists? procs st f kg h]
      rw [show List.foldl (processDirStep exists? procs) _ fs
            = processDirList exists? procs _ fs from rfl, ih]
      simp

theorem processDirList_relationships (exists? : FsPath → Bool) (procs : List Processor)
    (files : List FsPath) : ∀ st : KgState,
    (processDirList exists? procs st files).relationships
      = st.relationships
        ++ (files.filterMap (extractOk exists? procs)).flatMap (fun kg => kg.relationships) := by
  induction files with
  | nil => intro st; simp [processDirList]
  | cons f fs ih =>
    intro st
    rw [processDirList, List.foldl_cons, List.filterMap_cons]
    cases h : extractOk exists? procs f
    · rw [processDirStep_none exists? procs st f h]
      exact ih st
    · rename_i kg
      rw [processDirStep_some exists? procs st f kg h]
      rw [show List.foldl (processDirStep exists? procs) _ fs
            = processDirList exists? procs _ fs from rfl, ih]
      simp

theorem processDirList_files (exists? : FsPath → Bool) (procs : List Processor)
    (files : List FsPath) : ∀ st : KgState,
    (processDirList exists? procs st files).files_processed
      = st.files_processed
        ++ (files.filter (fun f => (extractOk exists? procs f).isSome)).map pathStr := by
  induction files with
  | nil => intro st; simp [processDirList]
  | cons f fs ih =>
    intro st
    rw [processDirList, List.foldl_cons]
    cases h : extractOk exists? procs f
    · rw [processDirStep_none exists? procs st f h]
      rw [show List.foldl (processDirStep exists? procs) st fs
            = processDirList exists? procs st fs from rfl, ih]
      simp [List.filter_cons, h]
    · rename_i kg
      rw [processDirStep_some exists? procs st f kg h]
      rw [show List.foldl (processDirStep exists? procs) _ fs
            = processDirList exists? procs _ fs from rfl, ih]
      simp [List.filter_cons, h]

/-- C1: `process_directory` catches every per-file extraction failure
inside `process_file` and simply skips that file: the run always completes
with a knowledge graph whose entities and relationships are exactly the
concatenated contributions of the files whose extraction succeeded, and
whose `files_processed` lists exactly those files; a failing file
contributes nothing. (`processDirectory` is a total function, so the run
as a whole never propagates a per-file exception.) -/
theorem directory_run_error_isolation (exists? : FsPath → Bool)
    (procs : List Processor) (tree : List FsPath) (fts : Option (List FileType)) :
    (processDirectory exists? procs initState tree fts).entities
      = ((candidateFiles tree (directoryExtensions procs fts)).filterMap
          (extractOk exists? procs)).flatMap (fun kg => kg.entities)
    ∧ (processDirectory exists? procs initState tree fts).relationships
      = ((candidateFiles tree (directoryExtensions procs fts)).filterMap
          (extractOk exists? procs)).flatMap (fun kg => kg.relationships)
    ∧ (processDirectory exists? procs initState tree fts).files_processed
      = ((candidateFiles tree (directoryExtensions procs fts)).filter
          (fun f => (extractOk exists? procs f).isSome)).map pathStr := by
  unfold processDirectory
  refine ⟨?_, ?_, ?_⟩
  · rw [processDirList_entities]
    simp [initState]
  · rw [processDirList_relationships]
    simp [initState]
  · rw [processDirList_files]
    simp [initState]

/-! ## C2 / C7 — batch runs -/

theorem foldl_append_singleton {α β : Type} (f : α → β) (l : List α) :
    ∀ acc : List β, l.foldl (fun acc x => acc ++ [f x]) acc = acc ++ l.map f := by
  induction l with
  | nil => intro acc; simp
  | cons x l ih =>
    intro acc
    rw [List.foldl_cons, ih]
    simp

theorem runSequential_eq_map (gen : String → Except String Docs)
    (repos : List String) : runSequential gen repos = repos.map (outcomeOf gen) := by
  unfold runSequential
  rw [foldl_append_singleton]
  simp

/-- C2 counterexample: a repository whose generator raises an exception
with an empty string rendering (`str(e) == ""`, e.g. `raise ValueError`)
yields a `failed` outcome whose error message is the empty string — not a
non-empty one as the claim requires. -/
theorem batch_error_counterexample :
    runSequential (fun _ => Except.error "") ["repoA"]
        = [{ repo := "repoA", status := RepoStatus.failed, docs := none, error := some "" }]
    ∧ ¬ (∀ r ∈ runSequential (fun _ => Except.error "") ["repoA"],
          r.status = RepoStatus.failed → ∃ msg, r.error = some msg ∧ msg ≠ "") := by
  have heq : runSequential (fun _ => Except.error "") ["repoA"]
      = [{ repo := "repoA", status := RepoStatus.failed, docs := none, error := some "" }] := by
    rfl
  refine ⟨heq, fun hall => ?_⟩
  obtain ⟨msg, hm, hne⟩ :=
    hall { repo := "repoA", status := RepoStatus.failed, docs := none, error := some "" }
      (by rw [heq]; simp) rfl
  exact hne (Option.some_injective _ hm.symm)

/-- C2 amended: a repository whose generator raises yields an outcome
record with status `failed` and error equal to the exception's string
rendering (which the code takes verbatim from `str(e)` and may therefore
be empty); every other repository is still processed, in order, and the
number of outcome records equals the number of repositories submitted —
in parallel mode as well, for any completion order. -/
theorem batch_failure_isolation (gen : String → Except String Docs)
    (repos : List String) :
    runSequential gen repos = repos.map (outcomeOf gen)
    ∧ (runSequential gen repos).length = repos.length
    ∧ (∀ repo e, gen repo = Except.error e →
        outcomeOf gen repo
          = { repo := repo, status := RepoStatus.failed, docs := none, error := some e })
    ∧ (∀ order : List String, order.Perm repos →
        (runParallel gen order).length = repos.length
        ∧ (runParallel gen order).Perm (runSequential gen repos)) := by
  have hmap := runSequential_eq_map gen repos
  refine ⟨hmap, by rw [hmap]; simp, ?_, ?_⟩
  · intro repo e hge
    unfold outcomeOf
    rw [hge]
  · intro order hperm
    have hp : (runParallel gen order).Perm (runSequential gen repos) := by
      rw [hmap]
      exact hperm.map (outcomeOf gen)
    refine ⟨?_, hp⟩
    rw [hp.length_eq, hmap]
    simp

/-- Witness for the amended C2, with one succeeding and one failing repo. -/
theorem batch_failure_isolation_witness :
    runSequential sampleGen ["good", "bad"] = ["good", "bad"].map (outcomeOf sampleGen)
    ∧ outcomeOf sampleGen "bad"
        = { repo := "bad", status := RepoStatus.failed, docs := none, error := some "boom" }
    ∧ (runParallel sampleGen ["bad", "good"]).length = 2 := by
  have h := batch_failure_isolation sampleGen ["good", "bad"]
  refine ⟨h.1, h.2.2.1 "bad" "boom" rfl, ?_⟩
  exact (h.2.2.2 ["bad", "good"] (by decide)).1

/-- C7: for a fixed repo set, a parallel run collected in any completion
order is a permutation of the sequential run — each repository gets the
identical outcome record, hence the same success/failed classification —
and the aggregate summary (success count, failed count, total docs over
succeeded repos) is identical, being order-independent. -/
theorem parallel_matches_sequential (gen : String → Except String Docs)
    (repos order : List String) (h : order.Perm repos) :
    (runParallel gen order).Perm (runSequential gen repos)
    ∧ batchSummary (runParallel gen order) = batchSummary (runSequential gen repos)
    ∧ ∀ repo : String,
        (runParallel gen order).count (outcomeOf gen repo)
          = (runSequential gen repos).count (outcomeOf gen repo) := by
  have hp : (runParallel gen order).Perm (runSequential gen repos) := by
    rw [runSequential_eq_map]
    exact h.map (outcomeOf gen)
  refine ⟨hp, ?_, fun repo => hp.count_eq _⟩
  unfold batchSummary
  congr 1
  · exact hp.countP_eq _
  · rw [hp.length_eq, hp.countP_eq]
  · exact List.Perm.sum_eq ((hp.filter _).map _)

/-- Witness for C7: a two-repo batch replayed in the opposite completion
order keeps the per-repo outcomes and the summary. -/
theorem parallel_matches_sequential_witness :
    (runParallel sampleGen ["bad", "good"]).Perm (runSequential sampleGen ["good", "bad"])
    ∧ batchSummary (runParallel sampleGen ["bad", "good"])
        = batchSummary (runSequential sampleGen ["good", "bad"]) := by
  have h := parallel_matches_sequential sampleGen ["good", "bad"] ["bad", "good"] (by decide)
  exact ⟨h.1, h.2.1⟩
